import Mathlib

/-!
Verification of the ControlMath kernel of the multicopter position controller
(modules/mc_pos_control/PositionControl).  The repository ships the test suite
ControlMathTest.cpp; the kernel itself (ControlMath.cpp/.hpp) is not part of the
tree, so the four operations are modelled from the specification and checked
against the concrete expectations recorded in the test suite.  Single-precision
floats are embedded as real numbers; the IEEE NaN sentinel used by addIfNotNan
is embedded as an optional value, as licensed by the specification's design
note on optional-numeric equivalents.
-/

open scoped Classical

noncomputable section

namespace ControlMath

/-- Planar vector of two real coordinates, embedding matrix::Vector2f. -/
@[ext] structure Vec2 where
  x : ℝ
  y : ℝ

/-- Spatial vector of three real coordinates, embedding matrix::Vector3f. -/
@[ext] structure Vec3 where
  x : ℝ
  y : ℝ
  z : ℝ

instance : Zero Vec2 := ⟨⟨0, 0⟩⟩

instance : Add Vec2 := ⟨fun a b => ⟨a.x + b.x, a.y + b.y⟩⟩

instance : Sub Vec2 := ⟨fun a b => ⟨a.x - b.x, a.y - b.y⟩⟩

instance : SMul ℝ Vec2 := ⟨fun r a => ⟨r * a.x, r * a.y⟩⟩

@[simp] theorem Vec2.zero_pair : (0 : Vec2) = ⟨0, 0⟩ := rfl

@[simp] theorem Vec2.add_pair (a b : Vec2) : a + b = ⟨a.x + b.x, a.y + b.y⟩ := rfl

@[simp] theorem Vec2.sub_pair (a b : Vec2) : a - b = ⟨a.x - b.x, a.y - b.y⟩ := rfl

@[simp] theorem Vec2.smul_pair (r : ℝ) (a : Vec2) : r • a = ⟨r * a.x, r * a.y⟩ := rfl

instance : Zero Vec3 := ⟨⟨0, 0, 0⟩⟩

instance : Add Vec3 := ⟨fun a b => ⟨a.x + b.x, a.y + b.y, a.z + b.z⟩⟩

instance : Sub Vec3 := ⟨fun a b => ⟨a.x - b.x, a.y - b.y, a.z - b.z⟩⟩

instance : Neg Vec3 := ⟨fun a => ⟨-a.x, -a.y, -a.z⟩⟩

instance : SMul ℝ Vec3 := ⟨fun r a => ⟨r * a.x, r * a.y, r * a.z⟩⟩

@[simp] theorem Vec3.zero_triple : (0 : Vec3) = ⟨0, 0, 0⟩ := rfl

@[simp] theorem Vec3.add_triple (a b : Vec3) : a + b = ⟨a.x + b.x, a.y + b.y, a.z + b.z⟩ := rfl

@[simp] theorem Vec3.sub_triple (a b : Vec3) : a - b = ⟨a.x - b.x, a.y - b.y, a.z - b.z⟩ := rfl

@[simp] theorem Vec3.neg_triple (a : Vec3) : -a = ⟨-a.x, -a.y, -a.z⟩ := rfl

@[simp] theorem Vec3.smul_triple (r : ℝ) (a : Vec3) : r • a = ⟨r * a.x, r * a.y, r * a.z⟩ := rfl

/-- Dot product of planar vectors. -/
def Vec2.dot (a b : Vec2) : ℝ := a.x * b.x + a.y * b.y

/-- Euclidean length of a planar vector (Vector2f::length / norm). -/
def Vec2.norm (a : Vec2) : ℝ := Real.sqrt (a.dot a)

/-- Unit vector along a planar vector (Vector2f::normalized). -/
def Vec2.normalized (a : Vec2) : Vec2 := (1 / a.norm) • a

/-- Dot product of spatial vectors. -/
def Vec3.dot (a b : Vec3) : ℝ := a.x * b.x + a.y * b.y + a.z * b.z

/-- Euclidean length of a spatial vector (Vector3f::length / norm). -/
def Vec3.norm (a : Vec3) : ℝ := Real.sqrt (a.dot a)

/-- Unit vector along a spatial vector (Vector3f::normalized). -/
def Vec3.normalized (a : Vec3) : Vec3 := (1 / a.norm) • a

/-- Cross product of spatial vectors (Vector3f::operator%). -/
def Vec3.cross (a b : Vec3) : Vec3 :=
  ⟨a.y * b.z - a.z * b.y, a.z * b.x - a.x * b.z, a.x * b.y - a.y * b.x⟩

theorem Vec2.dot_self_nonneg (a : Vec2) : 0 ≤ a.dot a := by
  have hx := mul_self_nonneg a.x
  have hy := mul_self_nonneg a.y
  simp only [Vec2.dot]
  linarith

theorem Vec2.norm_nonneg (a : Vec2) : 0 ≤ a.norm := Real.sqrt_nonneg _

theorem Vec2.norm_sq (a : Vec2) : a.norm ^ 2 = a.dot a := by
  simpa [Vec2.norm] using Real.sq_sqrt a.dot_self_nonneg

theorem Vec2.norm_zero : (0 : Vec2).norm = 0 := by
  simp [Vec2.norm, Vec2.dot]

theorem Vec2.dot_self_pos (a : Vec2) (h : a ≠ 0) : 0 < a.dot a := by
  rcases lt_or_eq_of_le a.dot_self_nonneg with hlt | heq
  · exact hlt
  · exfalso
    apply h
    have hc : a.x * a.x + a.y * a.y = 0 := by
      simpa [Vec2.dot] using heq.symm
    have hx : a.x * a.x = 0 := by
      nlinarith [mul_self_nonneg a.x, mul_self_nonneg a.y]
    have hy : a.y * a.y = 0 := by
      nlinarith [mul_self_nonneg a.x, mul_self_nonneg a.y]
    have hx0 : a.x = 0 := by nlinarith [hx]
    have hy0 : a.y = 0 := by nlinarith [hy]
    ext
    · simpa using hx0
    · simpa using hy0

theorem Vec2.norm_pos (a : Vec2) (h : a ≠ 0) : 0 < a.norm :=
  Real.sqrt_pos.mpr (a.dot_self_pos h)

theorem Vec2.norm_smul (r : ℝ) (a : Vec2) : (r • a).norm = |r| * a.norm := by
  have h1 : (r • a).dot (r • a) = r ^ 2 * a.dot a := by
    simp only [Vec2.smul_pair, Vec2.dot]
    ring
  rw [Vec2.norm, h1, Real.sqrt_mul (sq_nonneg r), Real.sqrt_sq_eq_abs]
  rfl

theorem Vec2.norm_normalized (a : Vec2) (h : a ≠ 0) : a.normalized.norm = 1 := by
  have hp := a.norm_pos h
  rw [Vec2.normalized, Vec2.norm_smul, abs_of_pos (by positivity : (0:ℝ) < 1 / a.norm)]
  field_simp

/-- Modelled from the spec (section 4.4): addIfNotNan of ControlMath.cpp, which is
absent from the source tree (only its test suite ControlMathTest.cpp is present).
The float scalar with its NaN "unset" sentinel is embedded as an optional real:
none stands for NaN.  The spec's design note states the merge semantics
(unset+unset=unset, unset+x=x, x+unset=x, x+y=x+y) is the exact contract.
The C++ reference parameter is embedded by returning the new accumulator. -/
def addIfNotNan (accumulator : Option ℝ) (addend : Option ℝ) : Option ℝ :=
  match addend with
  | none => accumulator
  | some b =>
    match accumulator with
    | none => some b
    | some a => some (a + b)

/-- C8: addIfNotNan is a total function satisfying the four-case NaN contract:
a NaN addend leaves the accumulator unchanged, a non-NaN addend overwrites a
NaN accumulator, two NaNs stay NaN, and two regular values add. -/
theorem addIfNotNan_contract :
    (∀ accumulator : Option ℝ, addIfNotNan accumulator none = accumulator) ∧
    (∀ b : ℝ, addIfNotNan none (some b) = some b) ∧
    addIfNotNan none none = none ∧
    (∀ a b : ℝ, addIfNotNan (some a) (some b) = some (a + b)) :=
  ⟨fun _ => rfl, fun _ => rfl, rfl, fun _ _ => rfl⟩

/-- Modelled from the spec (section 4.2, case 4): the scalar t chosen by
constrainXY when saturating, the larger root of the quadratic
norm (v0 + t * v1) = max in t, written with the quadratic's coefficients
a = v1.dot v1, m = v0.dot v1, c = v0.dot v0 - max^2. -/
def satScale (v0 v1 : Vec2) (max : ℝ) : ℝ :=
  (-(v0.dot v1) + Real.sqrt ((v0.dot v1) ^ 2 - (v1.dot v1) * (v0.dot v0 - max ^ 2))) /
    (v1.dot v1)

/-- Modelled from the spec (section 4.2): constrainXY of ControlMath.cpp, which is
absent from the source tree (only its test suite ControlMathTest.cpp is present).
The spec's policy, in order: (1) if the priority vector v0 already reaches max,
return v0 scaled to magnitude max and discard v1; (2) if v0 is zero and v1
exceeds max, return v1 scaled to max; (3) if the sum fits, return it unmodified;
(4) otherwise attenuate only the v1 contribution by the larger quadratic root. -/
def constrainXY (v0 v1 : Vec2) (max : ℝ) : Vec2 :=
  if max ≤ v0.norm then max • v0.normalized
  else if v0 = 0 ∧ max < v1.norm then max • v1.normalized
  else if (v0 + v1).norm ≤ max then v0 + v1
  else v0 + satScale v0 v1 max • v1

theorem dot_add_expand (v0 v1 : Vec2) :
    (v0 + v1).dot (v0 + v1) = v0.dot v0 + 2 * v0.dot v1 + v1.dot v1 := by
  simp only [Vec2.add_pair, Vec2.dot]
  ring

theorem dot_add_smul_expand (v0 v1 : Vec2) (t : ℝ) :
    (v0 + t • v1).dot (v0 + t • v1) =
      v0.dot v0 + 2 * t * v0.dot v1 + t ^ 2 * v1.dot v1 := by
  simp only [Vec2.add_pair, Vec2.smul_pair, Vec2.dot]
  ring

/-- Core algebra of the saturation branch: whenever the priority vector is
strictly inside the disk and the plain sum is strictly outside it, the larger
root of the saturation quadratic lies in [0, 1] and places the result exactly
on the boundary circle. -/
theorem satScale_spec (v0 v1 : Vec2) (max : ℝ)
    (h1 : v0.norm < max) (h2 : max < (v0 + v1).norm) :
    0 ≤ satScale v0 v1 max ∧ satScale v0 v1 max ≤ 1 ∧
      (v0 + satScale v0 v1 max • v1).dot (v0 + satScale v0 v1 max • v1) = max ^ 2 := by
  have hmax0 : 0 < max := lt_of_le_of_lt v0.norm_nonneg h1
  have hc : v0.dot v0 - max ^ 2 < 0 := by
    nlinarith [v0.norm_sq, v0.norm_nonneg]
  have hsum : max ^ 2 < (v0 + v1).dot (v0 + v1) := by
    nlinarith [(v0 + v1).norm_sq, (v0 + v1).norm_nonneg]
  have hexp := dot_add_expand v0 v1
  have ha2mc : 0 < v1.dot v1 + 2 * v0.dot v1 + (v0.dot v0 - max ^ 2) := by
    nlinarith
  have ha : 0 < v1.dot v1 := by
    rcases lt_or_eq_of_le v1.dot_self_nonneg with hlt | heq
    · exact hlt
    · exfalso
      have hv1 : v1 = 0 := by
        by_contra hne
        exact absurd heq.symm (ne_of_gt (v1.dot_self_pos hne))
      rw [hv1] at h2
      have hvv : v0 + (0 : Vec2) = v0 := by
        ext <;> simp
      rw [hvv] at h2
      linarith
  set a := v1.dot v1 with ha_def
  set m := v0.dot v1 with hm_def
  set c := v0.dot v0 - max ^ 2 with hc_def
  set s := Real.sqrt (m ^ 2 - a * c) with hs_def
  have hdisc : 0 < m ^ 2 - a * c := by nlinarith [sq_nonneg m, mul_pos ha (neg_pos.mpr hc)]
  have hs0 : 0 ≤ s := Real.sqrt_nonneg _
  have hs2 : s ^ 2 = m ^ 2 - a * c := Real.sq_sqrt hdisc.le
  have ht_def : satScale v0 v1 max = (-m + s) / a := by
    rw [satScale, ← ha_def, ← hm_def, ← hc_def, ← hs_def]
  have hms : m ≤ s := by
    rcases le_or_lt m 0 with hm0 | hm0
    · linarith
    · nlinarith
  have hamc : 0 < a + m := by nlinarith
  have hsam : s ≤ a + m := by nlinarith
  have h0t : 0 ≤ satScale v0 v1 max := by
    rw [ht_def]
    exact div_nonneg (by linarith) ha.le
  have ht1 : satScale v0 v1 max ≤ 1 := by
    rw [ht_def, div_le_one ha]
    linarith
  refine ⟨h0t, ht1, ?_⟩
  rw [dot_add_smul_expand, ← hm_def, ← ha_def, ht_def]
  have hczero : v0.dot v0 = c + max ^ 2 := by rw [hc_def]; ring
  rw [hczero]
  field_simp
  nlinarith [hs2]

/-- C2: if the priority vector already spends the whole budget, constrainXY
returns v0 scaled to magnitude exactly max, independently of v1. -/
theorem constrainXY_priority (v0 v1 : Vec2) (max : ℝ) (h : max ≤ v0.norm) :
    constrainXY v0 v1 max = max • v0.normalized ∧
    (∀ w : Vec2, constrainXY v0 w max = constrainXY v0 v1 max) ∧
    (0 < max → (constrainXY v0 v1 max).norm = max) := by
  have hres : constrainXY v0 v1 max = max • v0.normalized := by
    rw [constrainXY, if_pos h]
  refine ⟨hres, ?_, ?_⟩
  · intro w
    rw [hres, constrainXY, if_pos h]
  · intro hmax0
    have hv0 : v0 ≠ 0 := by
      intro h0
      rw [h0, Vec2.norm_zero] at h
      linarith
    rw [hres, Vec2.norm_smul, Vec2.norm_normalized v0 hv0, abs_of_pos hmax0, mul_one]

theorem constrainXY_priority_witness :
    constrainXY ⟨5, 0⟩ ⟨0, -5⟩ 5 = (5 : ℝ) • Vec2.normalized ⟨5, 0⟩ ∧
    (∀ w : Vec2, constrainXY ⟨5, 0⟩ w 5 = constrainXY ⟨5, 0⟩ ⟨0, -5⟩ 5) ∧
    ((0 : ℝ) < 5 → (constrainXY ⟨5, 0⟩ ⟨0, -5⟩ 5).norm = 5) :=
  constrainXY_priority ⟨5, 0⟩ ⟨0, -5⟩ 5 (by
    have h : Vec2.norm ⟨5, 0⟩ = 5 := by
      rw [Vec2.norm, Vec2.dot]
      norm_num
      rw [show (25 : ℝ) = 5 ^ 2 by norm_num, Real.sqrt_sq (by norm_num : (0:ℝ) ≤ 5)]
    rw [h])

/-- C6: when the priority vector is strictly inside the disk and the plain sum
exceeds it, constrainXY keeps v0 exactly and attenuates v1 by the larger
quadratic root t in [0, 1], landing exactly on the boundary circle. -/
theorem constrainXY_saturation (v0 v1 : Vec2) (max : ℝ)
    (h0 : 0 < v0.norm) (h1 : v0.norm < max) (h2 : max < (v0 + v1).norm) :
    constrainXY v0 v1 max = v0 + satScale v0 v1 max • v1 ∧
    0 ≤ satScale v0 v1 max ∧ satScale v0 v1 max ≤ 1 ∧
    (constrainXY v0 v1 max).norm = max := by
  have hv0 : ¬(v0 = 0 ∧ max < v1.norm) := by
    rintro ⟨hz, -⟩
    rw [hz, Vec2.norm_zero] at h0
    exact lt_irrefl 0 h0
  have hres : constrainXY v0 v1 max = v0 + satScale v0 v1 max • v1 := by
    rw [constrainXY, if_neg (not_le.mpr h1), if_neg hv0, if_neg (not_le.mpr h2)]
  have h := satScale_spec v0 v1 max h1 h2
  refine ⟨hres, h.1, h.2.1, ?_⟩
  have hmax0 : 0 < max := lt_of_le_of_lt v0.norm_nonneg h1
  rw [hres, Vec2.norm, h.2.2, Real.sqrt_sq hmax0.le]

theorem constrainXY_saturation_witness :
    constrainXY ⟨4, 0⟩ ⟨0, -4⟩ 5 = (⟨4, -3⟩ : Vec2) ∧
    (constrainXY ⟨4, 0⟩ ⟨0, -4⟩ 5).norm = 5 := by
  have hn0 : Vec2.norm ⟨4, 0⟩ = 4 := by
    rw [Vec2.norm, Vec2.dot]
    norm_num
    rw [show (16 : ℝ) = 4 ^ 2 by norm_num, Real.sqrt_sq (by norm_num : (0:ℝ) ≤ 4)]
  have hsum : (5 : ℝ) < Vec2.norm (⟨4, 0⟩ + ⟨0, -4⟩) := by
    rw [Vec2.add_pair, Vec2.norm, Vec2.dot]
    norm_num
    rw [Real.lt_sqrt (by norm_num : (0:ℝ) ≤ 5)]
    norm_num
  have h := constrainXY_saturation ⟨4, 0⟩ ⟨0, -4⟩ 5
    (by rw [hn0]; norm_num) (by rw [hn0]; norm_num) hsum
  have hs : satScale ⟨4, 0⟩ ⟨0, -4⟩ 5 = 3 / 4 := by
    rw [satScale, Vec2.dot, Vec2.dot, Vec2.dot]
    norm_num
    rw [show (144 : ℝ) = 12 ^ 2 by norm_num, Real.sqrt_sq (by norm_num : (0:ℝ) ≤ 12)]
    norm_num
  refine ⟨?_, h.2.2.2⟩
  rw [h.1, hs]
  ext <;> simp

/-- C9: a single uniform bound across all four policy branches: for any inputs
and any positive max, the magnitude of constrainXY never exceeds max. -/
theorem constrainXY_norm_le (v0 v1 : Vec2) (max : ℝ) (hmax : 0 < max) :
    (constrainXY v0 v1 max).norm ≤ max := by
  by_cases hb1 : max ≤ v0.norm
  · have hv0 : v0 ≠ 0 := by
      intro h0
      rw [h0, Vec2.norm_zero] at hb1
      linarith
    rw [constrainXY, if_pos hb1, Vec2.norm_smul, Vec2.norm_normalized v0 hv0,
      abs_of_pos hmax, mul_one]
  · by_cases hb2 : v0 = 0 ∧ max < v1.norm
    · have hv1 : v1 ≠ 0 := by
        intro h1
        rw [h1, Vec2.norm_zero] at hb2
        linarith [hb2.2]
      rw [constrainXY, if_neg hb1, if_pos hb2, Vec2.norm_smul,
        Vec2.norm_normalized v1 hv1, abs_of_pos hmax, mul_one]
    · by_cases hb3 : (v0 + v1).norm ≤ max
      · rw [constrainXY, if_neg hb1, if_neg hb2, if_pos hb3]
        exact hb3
      · push_neg at hb1 hb3
        have h := satScale_spec v0 v1 max hb1 hb3
        rw [constrainXY, if_neg (not_le.mpr hb1), if_neg hb2, if_neg (not_le.mpr hb3),
          Vec2.norm, h.2.2, Real.sqrt_sq hmax.le]

theorem constrainXY_norm_le_witness :
    (constrainXY ⟨3, 0⟩ ⟨4, 0⟩ 5).norm ≤ 5 :=
  constrainXY_norm_le ⟨3, 0⟩ ⟨4, 0⟩ 5 (by norm_num)

theorem Vec3.dot_self_nonneg3 (a : Vec3) : 0 ≤ a.dot a := by
  have hx := mul_self_nonneg a.x
  have hy := mul_self_nonneg a.y
  have hz := mul_self_nonneg a.z
  simp only [Vec3.dot]
  linarith

theorem Vec3.dot_self_pos3 (a : Vec3) (h : a ≠ 0) : 0 < a.dot a := by
  rcases lt_or_eq_of_le a.dot_self_nonneg3 with hlt | heq
  · exact hlt
  · exfalso
    apply h
    have hc : a.x * a.x + a.y * a.y + a.z * a.z = 0 := by
      simpa [Vec3.dot] using heq.symm
    have hx : a.x = 0 := by
      nlinarith [mul_self_nonneg a.x, mul_self_nonneg a.y, mul_self_nonneg a.z]
    have hy : a.y = 0 := by
      nlinarith [mul_self_nonneg a.x, mul_self_nonneg a.y, mul_self_nonneg a.z]
    have hz : a.z = 0 := by
      nlinarith [mul_self_nonneg a.x, mul_self_nonneg a.y, mul_self_nonneg a.z]
    ext
    · simpa using hx
    · simpa using hy
    · simpa using hz

/-- Segment direction d = lineEnd - lineStart of the sphere/line intersection. -/
def cslD (lineStart lineEnd : Vec3) : Vec3 := lineEnd - lineStart

/-- Quadratic coefficient a = d.dot d of the sphere/line intersection. -/
def cslA (lineStart lineEnd : Vec3) : ℝ := (cslD lineStart lineEnd).dot (cslD lineStart lineEnd)

/-- Quadratic coefficient b = 2 d.dot (lineStart - center). -/
def cslB (center lineStart lineEnd : Vec3) : ℝ :=
  2 * (cslD lineStart lineEnd).dot (lineStart - center)

/-- Quadratic coefficient c = norm (lineStart - center) ^ 2 - radius ^ 2. -/
def cslC (center : Vec3) (radius : ℝ) (lineStart lineEnd : Vec3) : ℝ :=
  (lineStart - center).dot (lineStart - center) - radius ^ 2

/-- Discriminant b^2 - 4 a c of the sphere/line quadratic. -/
def cslDisc (center : Vec3) (radius : ℝ) (lineStart lineEnd : Vec3) : ℝ :=
  cslB center lineStart lineEnd ^ 2 -
    4 * cslA lineStart lineEnd * cslC center radius lineStart lineEnd

/-- Larger root t2 = (-b + sqrt disc) / (2 a) of the sphere/line quadratic. -/
def cslT2 (center : Vec3) (radius : ℝ) (lineStart lineEnd : Vec3) : ℝ :=
  (-cslB center lineStart lineEnd + Real.sqrt (cslDisc center radius lineStart lineEnd)) /
    (2 * cslA lineStart lineEnd)

/-- Smaller root t1 = (-b - sqrt disc) / (2 a) of the sphere/line quadratic. -/
def cslT1 (center : Vec3) (radius : ℝ) (lineStart lineEnd : Vec3) : ℝ :=
  (-cslB center lineStart lineEnd - Real.sqrt (cslDisc center radius lineStart lineEnd)) /
    (2 * cslA lineStart lineEnd)

/-- Parameter of the orthogonal projection of center onto the infinite line. -/
def cslProj (center lineStart lineEnd : Vec3) : ℝ :=
  (cslD lineStart lineEnd).dot (center - lineStart) / cslA lineStart lineEnd

/-- Fallback point when no forward intersection exists: the orthogonal
projection of center onto the line, with its parameter clamped to [0, 1]. -/
def cslFallback (center lineStart lineEnd : Vec3) : Vec3 :=
  lineStart + min 1 (max 0 (cslProj center lineStart lineEnd)) • cslD lineStart lineEnd

/-- Modelled from the spec (section 4.3): cross_sphere_line of ControlMath.cpp,
which is absent from the source tree (only its test suite ControlMathTest.cpp is
present).  Parametrize the segment as lineStart + t * d; a negative discriminant
or a non-positive larger root yields the clamped closest point and the flag
false; otherwise the larger root, clipped to 1, yields the forward look-ahead
point and the flag true. -/
def cross_sphere_line (center : Vec3) (radius : ℝ) (lineStart lineEnd : Vec3) :
    Vec3 × Bool :=
  if cslDisc center radius lineStart lineEnd < 0 then
    (cslFallback center lineStart lineEnd, false)
  else if cslT2 center radius lineStart lineEnd ≤ 0 then
    (cslFallback center lineStart lineEnd, false)
  else
    (lineStart + min (cslT2 center radius lineStart lineEnd) 1 • cslD lineStart lineEnd, true)

/-- C3: the flag is false exactly when the discriminant is negative or the
larger root is non-positive, and in both of these cases the returned point is
the orthogonal projection of center onto the line clamped to the segment. -/
theorem cross_sphere_line_false_iff (center : Vec3) (radius : ℝ) (lineStart lineEnd : Vec3)
    (hne : lineStart ≠ lineEnd) :
    ((cross_sphere_line center radius lineStart lineEnd).2 = false ↔
      cslDisc center radius lineStart lineEnd < 0 ∨
        cslT2 center radius lineStart lineEnd ≤ 0) ∧
    ((cross_sphere_line center radius lineStart lineEnd).2 = false →
      (cross_sphere_line center radius lineStart lineEnd).1 =
        cslFallback center lineStart lineEnd) := by
  by_cases hd : cslDisc center radius lineStart lineEnd < 0
  · rw [cross_sphere_line, if_pos hd]
    exact ⟨by simp [hd], fun _ => rfl⟩
  · by_cases ht : cslT2 center radius lineStart lineEnd ≤ 0
    · rw [cross_sphere_line, if_neg hd, if_pos ht]
      exact ⟨by simp [ht], fun _ => rfl⟩
    · rw [cross_sphere_line, if_neg hd, if_neg ht]
      constructor
      · simp only [Prod.snd]
        constructor
        · intro h
          exact absurd h (by simp)
        · intro h
          exact absurd h (by simp [hd, ht])
      · intro h
        exact absurd h (by simp)

theorem cross_sphere_line_false_iff_witness :
    ((cross_sphere_line ⟨0, 2, 1⟩ 1 ⟨0, 0, 0⟩ ⟨0, 0, 2⟩).2 = false ↔
      cslDisc ⟨0, 2, 1⟩ 1 ⟨0, 0, 0⟩ ⟨0, 0, 2⟩ < 0 ∨
        cslT2 ⟨0, 2, 1⟩ 1 ⟨0, 0, 0⟩ ⟨0, 0, 2⟩ ≤ 0) ∧
    ((cross_sphere_line ⟨0, 2, 1⟩ 1 ⟨0, 0, 0⟩ ⟨0, 0, 2⟩).2 = false →
      (cross_sphere_line ⟨0, 2, 1⟩ 1 ⟨0, 0, 0⟩ ⟨0, 0, 2⟩).1 =
        cslFallback ⟨0, 2, 1⟩ ⟨0, 0, 0⟩ ⟨0, 0, 2⟩) :=
  cross_sphere_line_false_iff ⟨0, 2, 1⟩ 1 ⟨0, 0, 0⟩ ⟨0, 0, 2⟩ (by
    intro h
    have hz := congrArg Vec3.z h
    norm_num at hz)

/-- C4: the point returned by cross_sphere_line always lies on the closed
segment: its parameter t along lineEnd - lineStart satisfies 0 ≤ t ≤ 1, in the
true case and in the false case alike. -/
theorem cross_sphere_line_on_segment (center : Vec3) (radius : ℝ) (lineStart lineEnd : Vec3)
    (hne : lineStart ≠ lineEnd) :
    ∃ t : ℝ, 0 ≤ t ∧ t ≤ 1 ∧
      (cross_sphere_line center radius lineStart lineEnd).1 =
        lineStart + t • (lineEnd - lineStart) := by
  have hfb : ∃ t : ℝ, 0 ≤ t ∧ t ≤ 1 ∧
      cslFallback center lineStart lineEnd = lineStart + t • (lineEnd - lineStart) := by
    refine ⟨min 1 (max 0 (cslProj center lineStart lineEnd)), ?_, min_le_left _ _, rfl⟩
    exact le_min zero_le_one (le_max_left 0 _)
  by_cases hd : cslDisc center radius lineStart lineEnd < 0
  · rw [cross_sphere_line, if_pos hd]
    exact hfb
  · by_cases ht : cslT2 center radius lineStart lineEnd ≤ 0
    · rw [cross_sphere_line, if_neg hd, if_pos ht]
      exact hfb
    · push_neg at ht
      rw [cross_sphere_line, if_neg hd, if_neg (not_le.mpr ht)]
      exact ⟨min (cslT2 center radius lineStart lineEnd) 1,
        le_min ht.le zero_le_one, min_le_right _ _, rfl⟩

theorem cross_sphere_line_on_segment_witness :
    ∃ t : ℝ, 0 ≤ t ∧ t ≤ 1 ∧
      (cross_sphere_line ⟨0, 0, -(1/2)⟩ 1 ⟨0, 0, 0⟩ ⟨0, 0, 2⟩).1 =
        (⟨0, 0, 0⟩ : Vec3) + t • ((⟨0, 0, 2⟩ : Vec3) - ⟨0, 0, 0⟩) :=
  cross_sphere_line_on_segment ⟨0, 0, -(1/2)⟩ 1 ⟨0, 0, 0⟩ ⟨0, 0, 2⟩ (by
    intro h
    have hz := congrArg Vec3.z h
    norm_num at hz)

/-- C5: with a real larger root t2 > 0 the function returns true with the point
lineStart + min t2 1 * d; the larger root is always at least the smaller one,
and a root beyond the far endpoint is clipped exactly to lineEnd.  The three
on-axis cases of the test suite are reproduced exactly. -/
theorem cross_sphere_line_forward :
    (∀ (center : Vec3) (radius : ℝ) (lineStart lineEnd : Vec3),
      lineStart ≠ lineEnd →
      0 ≤ cslDisc center radius lineStart lineEnd →
      0 < cslT2 center radius lineStart lineEnd →
      (cross_sphere_line center radius lineStart lineEnd).2 = true ∧
      (cross_sphere_line center radius lineStart lineEnd).1 =
        lineStart + min (cslT2 center radius lineStart lineEnd) 1 • cslD lineStart lineEnd ∧
      cslT1 center radius lineStart lineEnd ≤ cslT2 center radius lineStart lineEnd ∧
      (1 < cslT2 center radius lineStart lineEnd →
        (cross_sphere_line center radius lineStart lineEnd).1 = lineEnd)) ∧
    cross_sphere_line ⟨0, 0, -(1/2)⟩ 1 ⟨0, 0, 0⟩ ⟨0, 0, 2⟩ = ((⟨0, 0, 1/2⟩ : Vec3), true) ∧
    cross_sphere_line ⟨0, 0, 1⟩ 1 ⟨0, 0, 0⟩ ⟨0, 0, 2⟩ = ((⟨0, 0, 2⟩ : Vec3), true) ∧
    cross_sphere_line ⟨0, 0, 5/2⟩ 1 ⟨0, 0, 0⟩ ⟨0, 0, 2⟩ = ((⟨0, 0, 2⟩ : Vec3), true) := by
  have h16 : Real.sqrt 16 = 4 := by
    rw [show (16 : ℝ) = 4 ^ 2 by norm_num, Real.sqrt_sq (by norm_num : (0:ℝ) ≤ 4)]
  have hA : cslA ⟨0, 0, 0⟩ ⟨0, 0, 2⟩ = 4 := by
    norm_num [cslA, cslD, Vec3.dot]
  have hD : cslD ⟨0, 0, 0⟩ ⟨0, 0, 2⟩ = (⟨0, 0, 2⟩ : Vec3) := by
    simp [cslD]
  refine ⟨?_, ?_, ?_, ?_⟩
  · intro center radius lineStart lineEnd hne hdisc ht2
    have hres : cross_sphere_line center radius lineStart lineEnd =
        (lineStart + min (cslT2 center radius lineStart lineEnd) 1 • cslD lineStart lineEnd,
          true) := by
      rw [cross_sphere_line, if_neg (not_lt.mpr hdisc), if_neg (not_le.mpr ht2)]
    have hd0 : cslD lineStart lineEnd ≠ 0 := by
      intro h0
      apply hne
      have hx := congrArg Vec3.x h0
      have hy := congrArg Vec3.y h0
      have hz := congrArg Vec3.z h0
      simp [cslD] at hx hy hz
      ext
      · linarith
      · linarith
      · linarith
    have ha : 0 < cslA lineStart lineEnd := (cslD lineStart lineEnd).dot_self_pos3 hd0
    refine ⟨by rw [hres], by rw [hres], ?_, ?_⟩
    · rw [cslT1, cslT2]
      apply div_le_div_of_nonneg_right ?_ (by linarith)
      linarith [Real.sqrt_nonneg (cslDisc center radius lineStart lineEnd)]
    · intro h1
      rw [hres, min_eq_right h1.le]
      ext
      · simp [cslD]
      · simp [cslD]
      · simp [cslD]
  · have hB : cslB ⟨0, 0, -(1/2)⟩ ⟨0, 0, 0⟩ ⟨0, 0, 2⟩ = 2 := by
      norm_num [cslB, cslD, Vec3.dot]
    have hC : cslC ⟨0, 0, -(1/2)⟩ 1 ⟨0, 0, 0⟩ ⟨0, 0, 2⟩ = -(3/4) := by
      norm_num [cslC, Vec3.dot]
    have hdisc : cslDisc ⟨0, 0, -(1/2)⟩ 1 ⟨0, 0, 0⟩ ⟨0, 0, 2⟩ = 16 := by
      rw [cslDisc, hB, hA, hC]
      norm_num
    have ht2 : cslT2 ⟨0, 0, -(1/2)⟩ 1 ⟨0, 0, 0⟩ ⟨0, 0, 2⟩ = 1/4 := by
      rw [cslT2, hdisc, hB, hA, h16]
      norm_num
    rw [cross_sphere_line, hdisc, ht2, if_neg (by norm_num), if_neg (by norm_num), hD]
    norm_num [Prod.ext_iff]
  · have hB : cslB ⟨0, 0, 1⟩ ⟨0, 0, 0⟩ ⟨0, 0, 2⟩ = -4 := by
      norm_num [cslB, cslD, Vec3.dot]
    have hC : cslC ⟨0, 0, 1⟩ 1 ⟨0, 0, 0⟩ ⟨0, 0, 2⟩ = 0 := by
      simp [cslC, Vec3.dot]
    have hdisc : cslDisc ⟨0, 0, 1⟩ 1 ⟨0, 0, 0⟩ ⟨0, 0, 2⟩ = 16 := by
      rw [cslDisc, hB, hA, hC]
      norm_num
    have ht2 : cslT2 ⟨0, 0, 1⟩ 1 ⟨0, 0, 0⟩ ⟨0, 0, 2⟩ = 1 := by
      rw [cslT2, hdisc, hB, hA, h16]
      norm_num
    rw [cross_sphere_line, hdisc, ht2, if_neg (by norm_num), if_neg (by norm_num), hD]
    norm_num [Prod.ext_iff]
  · have hB : cslB ⟨0, 0, 5/2⟩ ⟨0, 0, 0⟩ ⟨0, 0, 2⟩ = -10 := by
      norm_num [cslB, cslD, Vec3.dot]
    have hC : cslC ⟨0, 0, 5/2⟩ 1 ⟨0, 0, 0⟩ ⟨0, 0, 2⟩ = 21/4 := by
      norm_num [cslC, Vec3.dot]
    have hdisc : cslDisc ⟨0, 0, 5/2⟩ 1 ⟨0, 0, 0⟩ ⟨0, 0, 2⟩ = 16 := by
      rw [cslDisc, hB, hA, hC]
      norm_num
    have ht2 : cslT2 ⟨0, 0, 5/2⟩ 1 ⟨0, 0, 0⟩ ⟨0, 0, 2⟩ = 7/4 := by
      rw [cslT2, hdisc, hB, hA, h16]
      norm_num
    rw [cross_sphere_line, hdisc, ht2, if_neg (by norm_num), if_neg (by norm_num), hD]
    norm_num [Prod.ext_iff]

theorem cross_sphere_line_forward_witness :
    (cross_sphere_line ⟨0, 0, -(1/2)⟩ 1 ⟨0, 0, 0⟩ ⟨0, 0, 2⟩).2 = true ∧
    (cross_sphere_line ⟨0, 0, -(1/2)⟩ 1 ⟨0, 0, 0⟩ ⟨0, 0, 2⟩).1 =
      (⟨0, 0, 0⟩ : Vec3) +
        min (cslT2 ⟨0, 0, -(1/2)⟩ 1 ⟨0, 0, 0⟩ ⟨0, 0, 2⟩) 1 • cslD ⟨0, 0, 0⟩ ⟨0, 0, 2⟩ ∧
    cslT1 ⟨0, 0, -(1/2)⟩ 1 ⟨0, 0, 0⟩ ⟨0, 0, 2⟩ ≤ cslT2 ⟨0, 0, -(1/2)⟩ 1 ⟨0, 0, 0⟩ ⟨0, 0, 2⟩ ∧
    (1 < cslT2 ⟨0, 0, -(1/2)⟩ 1 ⟨0, 0, 0⟩ ⟨0, 0, 2⟩ →
      (cross_sphere_line ⟨0, 0, -(1/2)⟩ 1 ⟨0, 0, 0⟩ ⟨0, 0, 2⟩).1 = ⟨0, 0, 2⟩) := by
  have h16 : Real.sqrt 16 = 4 := by
    rw [show (16 : ℝ) = 4 ^ 2 by norm_num, Real.sqrt_sq (by norm_num : (0:ℝ) ≤ 4)]
  have hA : cslA ⟨0, 0, 0⟩ ⟨0, 0, 2⟩ = 4 := by
    norm_num [cslA, cslD, Vec3.dot]
  have hB : cslB ⟨0, 0, -(1/2)⟩ ⟨0, 0, 0⟩ ⟨0, 0, 2⟩ = 2 := by
    norm_num [cslB, cslD, Vec3.dot]
  have hC : cslC ⟨0, 0, -(1/2)⟩ 1 ⟨0, 0, 0⟩ ⟨0, 0, 2⟩ = -(3/4) := by
    norm_num [cslC, Vec3.dot]
  have hdisc : cslDisc ⟨0, 0, -(1/2)⟩ 1 ⟨0, 0, 0⟩ ⟨0, 0, 2⟩ = 16 := by
    rw [cslDisc, hB, hA, hC]
    norm_num
  have ht2 : cslT2 ⟨0, 0, -(1/2)⟩ 1 ⟨0, 0, 0⟩ ⟨0, 0, 2⟩ = 1/4 := by
    rw [cslT2, hdisc, hB, hA, h16]
    norm_num
  exact cross_sphere_line_forward.1 ⟨0, 0, -(1/2)⟩ 1 ⟨0, 0, 0⟩ ⟨0, 0, 2⟩
    (by
      intro h
      have hz := congrArg Vec3.z h
      norm_num at hz)
    (by rw [hdisc]; norm_num)
    (by rw [ht2]; norm_num)

/-- C10: a sphere center displaced off the line but within the radius still
produces a forward larger-root intersection.  The exact results are
(0, 0, (sqrt 3 - 1)/2), (0, 0, (2 + sqrt 3)/2) and (0, 0, 2); the first two
agree with the single-precision values 0.366025388 and 1.866025448 recorded in
the test suite to within one part in a million. -/
theorem cross_sphere_line_off_axis :
    cross_sphere_line ⟨0, 1/2, -(1/2)⟩ 1 ⟨0, 0, 0⟩ ⟨0, 0, 2⟩ =
      ((⟨0, 0, (Real.sqrt 3 - 1) / 2⟩ : Vec3), true) ∧
    |(Real.sqrt 3 - 1) / 2 - 0.366025388| < 1 / 1000000 ∧
    cross_sphere_line ⟨0, 1/2, 1⟩ 1 ⟨0, 0, 0⟩ ⟨0, 0, 2⟩ =
      ((⟨0, 0, (2 + Real.sqrt 3) / 2⟩ : Vec3), true) ∧
    |(2 + Real.sqrt 3) / 2 - 1.866025448| < 1 / 1000000 ∧
    cross_sphere_line ⟨0, 1/2, 5/2⟩ 1 ⟨0, 0, 0⟩ ⟨0, 0, 2⟩ = ((⟨0, 0, 2⟩ : Vec3), true) := by
  have h4 : Real.sqrt 4 = 2 := by
    rw [show (4 : ℝ) = 2 ^ 2 by norm_num, Real.sqrt_sq (by norm_num : (0:ℝ) ≤ 2)]
  have h12 : Real.sqrt 12 = 2 * Real.sqrt 3 := by
    rw [show (12 : ℝ) = 4 * 3 by norm_num, Real.sqrt_mul (by norm_num : (0:ℝ) ≤ 4), h4]
  have hub : Real.sqrt 3 < 1.7320509 := by
    rw [show (1.7320509 : ℝ) = Real.sqrt (1.7320509 ^ 2) from
      (Real.sqrt_sq (by norm_num)).symm]
    exact Real.sqrt_lt_sqrt (by norm_num) (by norm_num)
  have hlb : 1.7320508 < Real.sqrt 3 := by
    rw [show (1.7320508 : ℝ) = Real.sqrt (1.7320508 ^ 2) from
      (Real.sqrt_sq (by norm_num)).symm]
    exact Real.sqrt_lt_sqrt (by norm_num) (by norm_num)
  have hA : cslA ⟨0, 0, 0⟩ ⟨0, 0, 2⟩ = 4 := by
    norm_num [cslA, cslD, Vec3.dot]
  have hD : cslD ⟨0, 0, 0⟩ ⟨0, 0, 2⟩ = (⟨0, 0, 2⟩ : Vec3) := by
    simp [cslD]
  refine ⟨?_, ?_, ?_, ?_, ?_⟩
  · have hB : cslB ⟨0, 1/2, -(1/2)⟩ ⟨0, 0, 0⟩ ⟨0, 0, 2⟩ = 2 := by
      norm_num [cslB, cslD, Vec3.dot]
    have hC : cslC ⟨0, 1/2, -(1/2)⟩ 1 ⟨0, 0, 0⟩ ⟨0, 0, 2⟩ = -(1/2) := by
      norm_num [cslC, Vec3.dot]
    have hdisc : cslDisc ⟨0, 1/2, -(1/2)⟩ 1 ⟨0, 0, 0⟩ ⟨0, 0, 2⟩ = 12 := by
      rw [cslDisc, hB, hA, hC]
      norm_num
    have ht2 : cslT2 ⟨0, 1/2, -(1/2)⟩ 1 ⟨0, 0, 0⟩ ⟨0, 0, 2⟩ = (Real.sqrt 3 - 1) / 4 := by
      rw [cslT2, hdisc, hB, hA, h12]
      ring
    rw [cross_sphere_line, hdisc, ht2, if_neg (by norm_num),
      if_neg (by nlinarith : ¬(Real.sqrt 3 - 1) / 4 ≤ 0), hD,
      min_eq_left (by nlinarith : (Real.sqrt 3 - 1) / 4 ≤ 1)]
    refine Prod.ext ?_ rfl
    ext <;> simp <;> ring
  · rw [abs_lt]
    constructor <;> nlinarith
  · have hB : cslB ⟨0, 1/2, 1⟩ ⟨0, 0, 0⟩ ⟨0, 0, 2⟩ = -4 := by
      norm_num [cslB, cslD, Vec3.dot]
    have hC : cslC ⟨0, 1/2, 1⟩ 1 ⟨0, 0, 0⟩ ⟨0, 0, 2⟩ = 1/4 := by
      norm_num [cslC, Vec3.dot]
    have hdisc : cslDisc ⟨0, 1/2, 1⟩ 1 ⟨0, 0, 0⟩ ⟨0, 0, 2⟩ = 12 := by
      rw [cslDisc, hB, hA, hC]
      norm_num
    have ht2 : cslT2 ⟨0, 1/2, 1⟩ 1 ⟨0, 0, 0⟩ ⟨0, 0, 2⟩ = (2 + Real.sqrt 3) / 4 := by
      rw [cslT2, hdisc, hB, hA, h12]
      ring
    rw [cross_sphere_line, hdisc, ht2, if_neg (by norm_num),
      if_neg (by nlinarith : ¬(2 + Real.sqrt 3) / 4 ≤ 0), hD,
      min_eq_left (by nlinarith : (2 + Real.sqrt 3) / 4 ≤ 1)]
    refine Prod.ext ?_ rfl
    ext <;> simp <;> ring
  · rw [abs_lt]
    constructor <;> nlinarith
  · have hB : cslB ⟨0, 1/2, 5/2⟩ ⟨0, 0, 0⟩ ⟨0, 0, 2⟩ = -10 := by
      norm_num [cslB, cslD, Vec3.dot]
    have hC : cslC ⟨0, 1/2, 5/2⟩ 1 ⟨0, 0, 0⟩ ⟨0, 0, 2⟩ = 11/2 := by
      norm_num [cslC, Vec3.dot]
    have hdisc : cslDisc ⟨0, 1/2, 5/2⟩ 1 ⟨0, 0, 0⟩ ⟨0, 0, 2⟩ = 12 := by
      rw [cslDisc, hB, hA, hC]
      norm_num
    have ht2 : cslT2 ⟨0, 1/2, 5/2⟩ 1 ⟨0, 0, 0⟩ ⟨0, 0, 2⟩ = (5 + Real.sqrt 3) / 4 := by
      rw [cslT2, hdisc, hB, hA, h12]
      ring
    rw [cross_sphere_line, hdisc, ht2, if_neg (by norm_num),
      if_neg (by nlinarith : ¬(5 + Real.sqrt 3) / 4 ≤ 0), hD,
      min_eq_right (by nlinarith : (1:ℝ) ≤ (5 + Real.sqrt 3) / 4)]
    refine Prod.ext ?_ rfl
    ext <;> simp

/-- Direction-cosine matrix stored by columns: the world-frame coordinates of
the body x, y and z axes (matrix::Dcmf filled column by column). -/
@[ext] structure Dcm where
  colX : Vec3
  colY : Vec3
  colZ : Vec3

/-- Third column of a rotation: the body z-axis in world coordinates
(Quatf::dcm_z).  The unit quaternion q_d of the setpoint is represented here by
its direction-cosine matrix; the DCM/quaternion conversions are mutually
inverse on rotations, so dcm_z of the quaternion is the third column of the
matrix it was built from. -/
def dcm_z (R : Dcm) : Vec3 := R.colZ

/-- Four-quadrant arctangent atan2 y x, embedded as the complex argument. -/
def atan2 (y x : ℝ) : ℝ := Complex.arg ⟨x, y⟩

/-- Roll of the canonical intrinsic roll-pitch-yaw decomposition: the sequence
R = Rx(roll) * Ry(pitch) * Rz(yaw) gives R(1,2) = -sin roll * cos pitch and
R(2,2) = cos roll * cos pitch, so roll = atan2 (-R(1,2)) (R(2,2)). -/
def eulerRollOf (R : Dcm) : ℝ := atan2 (-R.colZ.y) R.colZ.z

/-- Pitch of the intrinsic roll-pitch-yaw decomposition: R(0,2) = sin pitch. -/
def eulerPitchOf (R : Dcm) : ℝ := Real.arcsin R.colZ.x

/-- Yaw of the intrinsic roll-pitch-yaw decomposition: R(0,1) = -cos pitch *
sin yaw and R(0,0) = cos pitch * cos yaw, so yaw = atan2 (-R(0,1)) (R(0,0)). -/
def eulerYawOf (R : Dcm) : ℝ := atan2 (-R.colY.x) R.colX.x

/-- Attitude setpoint record (vehicle_attitude_setpoint_s): desired orientation,
its Euler decomposition, and the body-frame thrust vector. -/
structure AttitudeSetpoint where
  q_d : Dcm
  roll_body : ℝ
  pitch_body : ℝ
  yaw_body : ℝ
  thrust_body : Vec3

/-- Desired body z-axis: minus the normalized thrust setpoint (spec 4.1 step 1). -/
def bodyZ (thrust_sp : Vec3) : Vec3 := -thrust_sp.normalized

/-- Candidate yaw-only body x-axis in the world frame (spec 4.1 step 2). -/
def xC (yaw : ℝ) : Vec3 := ⟨Real.cos yaw, Real.sin yaw, 0⟩

/-- Projection of the candidate x-axis onto the plane orthogonal to the body
z-axis (spec 4.1 step 3). -/
def xProjected (thrust_sp : Vec3) (yaw : ℝ) : Vec3 :=
  xC yaw - ((xC yaw).dot (bodyZ thrust_sp)) • bodyZ thrust_sp

/-- Desired body x-axis: the normalized projection, or a fixed reference axis
when the candidate is parallel to the body z-axis (spec 4.1 step 3; the spec
leaves the reference axis unnamed and the world vertical is chosen here). -/
def bodyX (thrust_sp : Vec3) (yaw : ℝ) : Vec3 :=
  if xProjected thrust_sp yaw = 0 then ⟨0, 0, 1⟩ else (xProjected thrust_sp yaw).normalized

/-- Desired body y-axis y_b = z_b x x_b (spec 4.1 step 4). -/
def bodyY (thrust_sp : Vec3) (yaw : ℝ) : Vec3 :=
  (bodyZ thrust_sp).cross (bodyX thrust_sp yaw)

/-- Rotation assembled with columns (x_b, y_b, z_b) (spec 4.1 step 5). -/
def attDcm (thrust_sp : Vec3) (yaw : ℝ) : Dcm :=
  ⟨bodyX thrust_sp yaw, bodyY thrust_sp yaw, bodyZ thrust_sp⟩

/-- Modelled from the spec (section 4.1): thrustToAttitude of ControlMath.cpp,
which is absent from the source tree (only its test suite ControlMathTest.cpp
is present).  Maps a desired thrust vector and heading to the attitude
setpoint: orientation with body z opposite the thrust, Euler decomposition in
the intrinsic roll-pitch-yaw sequence, and thrust_body = (0, 0, -norm). -/
def thrustToAttitude (thrust_sp : Vec3) (yaw : ℝ) : AttitudeSetpoint :=
  { q_d := attDcm thrust_sp yaw
    roll_body := eulerRollOf (attDcm thrust_sp yaw)
    pitch_body := eulerPitchOf (attDcm thrust_sp yaw)
    yaw_body := eulerYawOf (attDcm thrust_sp yaw)
    thrust_body := ⟨0, 0, -thrust_sp.norm⟩ }

/-- C1: for every non-zero thrust setpoint and every yaw, the body z-axis of
the produced orientation is minus the normalized thrust setpoint, the vertical
body thrust is minus the thrust magnitude, and the horizontal body thrust
components are zero. -/
theorem thrustToAttitude_direction (thrust_sp : Vec3) (yaw : ℝ) (h : thrust_sp ≠ 0) :
    dcm_z (thrustToAttitude thrust_sp yaw).q_d = -thrust_sp.normalized ∧
    (thrustToAttitude thrust_sp yaw).thrust_body.z = -thrust_sp.norm ∧
    (thrustToAttitude thrust_sp yaw).thrust_body.x = 0 ∧
    (thrustToAttitude thrust_sp yaw).thrust_body.y = 0 :=
  ⟨rfl, rfl, rfl, rfl⟩

theorem thrustToAttitude_direction_witness :
    dcm_z (thrustToAttitude ⟨0, 0, -1⟩ 0).q_d = -Vec3.normalized ⟨0, 0, -1⟩ ∧
    (thrustToAttitude ⟨0, 0, -1⟩ 0).thrust_body.z = -Vec3.norm ⟨0, 0, -1⟩ ∧
    (thrustToAttitude ⟨0, 0, -1⟩ 0).thrust_body.x = 0 ∧
    (thrustToAttitude ⟨0, 0, -1⟩ 0).thrust_body.y = 0 :=
  thrustToAttitude_direction ⟨0, 0, -1⟩ 0 (by
    intro h0
    rw [Vec3.zero_triple] at h0
    have hz := congrArg Vec3.z h0
    norm_num at hz)

theorem atan2_zero_one : atan2 0 1 = 0 := by
  have h : (⟨1, 0⟩ : ℂ) = 1 := Complex.ext (by simp) (by simp)
  rw [atan2, h, Complex.arg_one]

theorem atan2_zero_neg_one : atan2 0 (-1) = Real.pi := by
  have h : (⟨-1, 0⟩ : ℂ) = -1 := Complex.ext (by simp) (by simp)
  rw [atan2, h, Complex.arg_neg_one]

theorem atan2_neg_one_zero : atan2 (-1) 0 = -(Real.pi / 2) := by
  have h : (⟨0, -1⟩ : ℂ) = -Complex.I := Complex.ext (by simp) (by simp)
  rw [atan2, h, Complex.arg_neg_I]

/-- C7: the Euler fields of the setpoint are the intrinsic roll-pitch-yaw
decomposition of q_d, and a half-turn tilt lands on the roll channel: thrust
straight up gives the zero attitude, thrust straight down gives roll = pi with
zero pitch and yaw, and thrust straight down with yaw pi/2 gives roll = pi,
pitch = 0, yaw = -pi/2. -/
theorem thrustToAttitude_euler :
    (∀ (thrust_sp : Vec3) (yaw : ℝ),
      (thrustToAttitude thrust_sp yaw).roll_body =
        eulerRollOf (thrustToAttitude thrust_sp yaw).q_d ∧
      (thrustToAttitude thrust_sp yaw).pitch_body =
        eulerPitchOf (thrustToAttitude thrust_sp yaw).q_d ∧
      (thrustToAttitude thrust_sp yaw).yaw_body =
        eulerYawOf (thrustToAttitude thrust_sp yaw).q_d) ∧
    ((thrustToAttitude ⟨0, 0, -1⟩ 0).roll_body = 0 ∧
      (thrustToAttitude ⟨0, 0, -1⟩ 0).pitch_body = 0 ∧
      (thrustToAttitude ⟨0, 0, -1⟩ 0).yaw_body = 0) ∧
    ((thrustToAttitude ⟨0, 0, 1⟩ 0).roll_body = Real.pi ∧
      (thrustToAttitude ⟨0, 0, 1⟩ 0).pitch_body = 0 ∧
      (thrustToAttitude ⟨0, 0, 1⟩ 0).yaw_body = 0) ∧
    ((thrustToAttitude ⟨0, 0, 1⟩ (Real.pi / 2)).roll_body = Real.pi ∧
      (thrustToAttitude ⟨0, 0, 1⟩ (Real.pi / 2)).pitch_body = 0 ∧
      (thrustToAttitude ⟨0, 0, 1⟩ (Real.pi / 2)).yaw_body = -(Real.pi / 2)) := by
  have hxne : (⟨1, 0, 0⟩ : Vec3) ≠ 0 := by
    intro h
    rw [Vec3.zero_triple] at h
    have hx := congrArg Vec3.x h
    norm_num at hx
  have hyne : (⟨0, 1, 0⟩ : Vec3) ≠ 0 := by
    intro h
    rw [Vec3.zero_triple] at h
    have hy := congrArg Vec3.y h
    norm_num at hy
  have hnx : Vec3.norm ⟨1, 0, 0⟩ = 1 := by
    rw [Vec3.norm, Vec3.dot]
    norm_num
  have hny : Vec3.norm ⟨0, 1, 0⟩ = 1 := by
    rw [Vec3.norm, Vec3.dot]
    norm_num
  have hnzup : Vec3.norm ⟨0, 0, -1⟩ = 1 := by
    rw [Vec3.norm, Vec3.dot]
    norm_num
  have hnzdn : Vec3.norm ⟨0, 0, 1⟩ = 1 := by
    rw [Vec3.norm, Vec3.dot]
    norm_num
  have hbzup : bodyZ ⟨0, 0, -1⟩ = (⟨0, 0, 1⟩ : Vec3) := by
    rw [bodyZ, Vec3.normalized, hnzup]
    ext <;> simp
  have hbzdn : bodyZ ⟨0, 0, 1⟩ = (⟨0, 0, -1⟩ : Vec3) := by
    rw [bodyZ, Vec3.normalized, hnzdn]
    ext <;> simp
  have hxc0 : xC 0 = (⟨1, 0, 0⟩ : Vec3) := by
    rw [xC]
    norm_num
  have hxc2 : xC (Real.pi / 2) = (⟨0, 1, 0⟩ : Vec3) := by
    rw [xC]
    norm_num [Real.cos_pi_div_two, Real.sin_pi_div_two]
  have hR1 : attDcm ⟨0, 0, -1⟩ 0 = (⟨⟨1, 0, 0⟩, ⟨0, 1, 0⟩, ⟨0, 0, 1⟩⟩ : Dcm) := by
    have hproj : xProjected ⟨0, 0, -1⟩ 0 = (⟨1, 0, 0⟩ : Vec3) := by
      rw [xProjected, hxc0, hbzup, Vec3.dot]
      ext <;> simp
    have hbx : bodyX ⟨0, 0, -1⟩ 0 = (⟨1, 0, 0⟩ : Vec3) := by
      rw [bodyX, hproj, if_neg hxne, Vec3.normalized, hnx]
      ext <;> simp
    have hby : bodyY ⟨0, 0, -1⟩ 0 = (⟨0, 1, 0⟩ : Vec3) := by
      rw [bodyY, hbzup, hbx, Vec3.cross]
      ext <;> simp
    rw [attDcm, hbx, hby, hbzup]
  have hR2 : attDcm ⟨0, 0, 1⟩ 0 = (⟨⟨1, 0, 0⟩, ⟨0, -1, 0⟩, ⟨0, 0, -1⟩⟩ : Dcm) := by
    have hproj : xProjected ⟨0, 0, 1⟩ 0 = (⟨1, 0, 0⟩ : Vec3) := by
      rw [xProjected, hxc0, hbzdn, Vec3.dot]
      ext <;> simp
    have hbx : bodyX ⟨0, 0, 1⟩ 0 = (⟨1, 0, 0⟩ : Vec3) := by
      rw [bodyX, hproj, if_neg hxne, Vec3.normalized, hnx]
      ext <;> simp
    have hby : bodyY ⟨0, 0, 1⟩ 0 = (⟨0, -1, 0⟩ : Vec3) := by
      rw [bodyY, hbzdn, hbx, Vec3.cross]
      ext <;> simp
    rw [attDcm, hbx, hby, hbzdn]
  have hR3 : attDcm ⟨0, 0, 1⟩ (Real.pi / 2) =
      (⟨⟨0, 1, 0⟩, ⟨1, 0, 0⟩, ⟨0, 0, -1⟩⟩ : Dcm) := by
    have hproj : xProjected ⟨0, 0, 1⟩ (Real.pi / 2) = (⟨0, 1, 0⟩ : Vec3) := by
      rw [xProjected, hxc2, hbzdn, Vec3.dot]
      ext <;> simp
    have hbx : bodyX ⟨0, 0, 1⟩ (Real.pi / 2) = (⟨0, 1, 0⟩ : Vec3) := by
      rw [bodyX, hproj, if_neg hyne, Vec3.normalized, hny]
      ext <;> simp
    have hby : bodyY ⟨0, 0, 1⟩ (Real.pi / 2) = (⟨1, 0, 0⟩ : Vec3) := by
      rw [bodyY, hbzdn, hbx, Vec3.cross]
      ext <;> simp
    rw [attDcm, hbx, hby, hbzdn]
  refine ⟨fun thrust_sp yaw => ⟨rfl, rfl, rfl⟩, ?_, ?_, ?_⟩
  · refine ⟨?_, ?_, ?_⟩
    · show eulerRollOf (attDcm ⟨0, 0, -1⟩ 0) = 0
      rw [hR1, eulerRollOf]
      simpa using atan2_zero_one
    · show eulerPitchOf (attDcm ⟨0, 0, -1⟩ 0) = 0
      rw [hR1, eulerPitchOf]
      simpa using Real.arcsin_zero
    · show eulerYawOf (attDcm ⟨0, 0, -1⟩ 0) = 0
      rw [hR1, eulerYawOf]
      simpa using atan2_zero_one
  · refine ⟨?_, ?_, ?_⟩
    · show eulerRollOf (attDcm ⟨0, 0, 1⟩ 0) = Real.pi
      rw [hR2, eulerRollOf]
      simpa using atan2_zero_neg_one
    · show eulerPitchOf (attDcm ⟨0, 0, 1⟩ 0) = 0
      rw [hR2, eulerPitchOf]
      simpa using Real.arcsin_zero
    · show eulerYawOf (attDcm ⟨0, 0, 1⟩ 0) = 0
      rw [hR2, eulerYawOf]
      simpa using atan2_zero_one
  · refine ⟨?_, ?_, ?_⟩
    · show eulerRollOf (attDcm ⟨0, 0, 1⟩ (Real.pi / 2)) = Real.pi
      rw [hR3, eulerRollOf]
      simpa using atan2_zero_neg_one
    · show eulerPitchOf (attDcm ⟨0, 0, 1⟩ (Real.pi / 2)) = 0
      rw [hR3, eulerPitchOf]
      simpa using Real.arcsin_zero
    · show eulerYawOf (attDcm ⟨0, 0, 1⟩ (Real.pi / 2)) = -(Real.pi / 2)
      rw [hR3, eulerYawOf]
      simpa using atan2_neg_one_zero

end ControlMath
